import Mathlib

/-!
Shallow embedding of the student-marks record store from
`03-StudentManager.py`.  Text is modelled as `List Char`; a file is the
list of its lines (as `readlines` returns them, trailing newline
included where relevant).  Python's `str.strip`, `str.split(',')`,
`str.isdigit` and `int(...)` are modelled on ASCII input, and Python's
arbitrary-precision integers as `Int`.  Fractional arithmetic
(`calculate_percentage`) is modelled over `ℚ`, which is exact and
order-isomorphic to the float computation on the integer mark ranges the
program manipulates.  GUI concerns (widgets, dialogs, message boxes) are
out of scope; each operation is embedded from the point where the
handler has read and converted its inputs.
-/

namespace StudentMgr

/-- Characters Python's `str.strip` removes (ASCII whitespace). -/
def isSpace (c : Char) : Bool :=
  c = ' ' || c = '\t' || c = '\n' || c = '\r' || c = '\x0b' || c = '\x0c'

/-- Model of Python `str.strip()`: drop whitespace from both ends. -/
def stripChars (l : List Char) : List Char :=
  ((l.dropWhile isSpace).reverse.dropWhile isSpace).reverse

/-- Model of Python `str.split(',')`. -/
def splitOnComma : List Char → List (List Char)
  | [] => [[]]
  | c :: rest =>
    if c = ',' then [] :: splitOnComma rest
    else
      match splitOnComma rest with
      | [] => [[c]]
      | f :: fs => (c :: f) :: fs

/-- Model of Python `str.isdigit()` on ASCII text: nonempty and all digits. -/
def isdigit (l : List Char) : Bool := !l.isEmpty && l.all (·.isDigit)

/-- Numeric value of a digit string (most significant digit first). -/
def digitsVal (l : List Char) : Nat := l.foldl (fun a c => 10 * a + (c.toNat - 48)) 0

/-- Model of Python `int(s)` on ASCII decimal text: strip whitespace, allow
one optional sign, then require a nonempty run of digits; `none` models the
`ValueError` raised otherwise. -/
def pyInt? (l : List Char) : Option Int :=
  if isdigit (stripChars l) then some ((digitsVal (stripChars l) : Nat) : Int)
  else if (stripChars l).head? = some '-' ∧ isdigit (stripChars l).tail then
    some (-((digitsVal (stripChars l).tail : Nat) : Int))
  else if (stripChars l).head? = some '+' ∧ isdigit (stripChars l).tail then
    some ((digitsVal (stripChars l).tail : Nat) : Int)
  else none

/-- One student record, as built by `load_data` / `save_student` /
`save_changes`: the dict with keys `code`, `name`, `course_marks`
(always exactly three entries, here the fields `cm1 cm2 cm3`) and
`exam_mark`. -/
structure Student where
  code : Int
  name : List Char
  cm1 : Int
  cm2 : Int
  cm3 : Int
  exam_mark : Int
deriving DecidableEq, Repr

/-- The `course_marks` list of the record. -/
def Student.course_marks (s : Student) : List Int := [s.cm1, s.cm2, s.cm3]

/-- One iteration of the parsing loop of `load_data` (lines 74-91): strip
the line, split on commas, require exactly 6 fields, parse the numeric
fields with `int`; `none` models the `continue` that skips the line. -/
def parseLine (line : List Char) : Option Student :=
  match splitOnComma (stripChars line) with
  | [d0, d1, d2, d3, d4, d5] =>
    match pyInt? d0, pyInt? d2, pyInt? d3, pyInt? d4, pyInt? d5 with
    | some code, some m1, some m2, some m3, some exam =>
      some ⟨code, d1, m1, m2, m3, exam⟩
    | _, _, _, _, _ => none
  | _ => none

/-- `StudentManager.load_data` (lines 69-91), from the point where the
file's lines are in hand: skip the first line when `lines[0].strip().isdigit()`,
then keep each remaining line that parses as a record. -/
def load_data (lines : List (List Char)) : List Student :=
  match lines with
  | [] => []
  | l0 :: rest =>
    if isdigit (stripChars l0) then rest.filterMap parseLine
    else (l0 :: rest).filterMap parseLine

/-- Decimal digit characters. -/
def digitChar (d : Nat) : Char :=
  if d = 0 then '0' else if d = 1 then '1' else if d = 2 then '2'
  else if d = 3 then '3' else if d = 4 then '4' else if d = 5 then '5'
  else if d = 6 then '6' else if d = 7 then '7' else if d = 8 then '8' else '9'

/-- Decimal rendering of a natural number, as Python's `str`/f-string does. -/
def natDigits (n : Nat) : List Char :=
  if _h : n < 10 then [digitChar n]
  else natDigits (n / 10) ++ [digitChar (n % 10)]
  termination_by n
  decreasing_by exact Nat.div_lt_self (by omega) (by omega)

/-- Decimal rendering of an integer, as Python's f-string formats it. -/
def intToChars (k : Int) : List Char :=
  if k < 0 then '-' :: natDigits (-k).toNat else natDigits k.toNat

/-- The line `save_data` writes for one student (line 108), with its
trailing newline. -/
def save_line (s : Student) : List Char :=
  intToChars s.code ++ ',' :: (s.name ++ ',' :: (intToChars s.cm1 ++ ',' ::
    (intToChars s.cm2 ++ ',' :: (intToChars s.cm3 ++ ',' :: intToChars s.exam_mark))))

/-- `StudentManager.save_data` (lines 96-112) as the sequence of lines it
writes: the record count first, then one line per student. -/
def save_data (students : List Student) : List (List Char) :=
  (natDigits students.length ++ ['\n']) :: students.map (fun s => save_line s ++ ['\n'])

/-- `StudentManager.calculate_percentage` (lines 114-119), over `ℚ`. -/
def calculate_percentage (s : Student) : ℚ :=
  let total_coursework : Int := s.cm1 + s.cm2 + s.cm3
  let total_marks : Int := total_coursework + s.exam_mark
  ((total_marks : ℚ) / 160) * 100

/-- `StudentManager.get_grade` (lines 121-133). -/
def get_grade (percentage : ℚ) : Char :=
  if percentage ≥ 70 then 'A'
  else if percentage ≥ 60 then 'B'
  else if percentage ≥ 50 then 'C'
  else if percentage ≥ 40 then 'D'
  else 'F'

/-- The code lookup used by `view_individual` (lines 266-271): linear scan,
first match wins. -/
def get_by_code (students : List Student) (code : Int) : Option Student :=
  students.find? (fun s => s.code == code)

/-- Failure outcomes of the mutating operations, as the error dialogs the
handlers raise. -/
inductive MErr where
  | NotFound
  | DuplicateCode
  | ValidationError
deriving DecidableEq, Repr

/-- `add_student.save_student` (lines 371-415), from the point where the
entry fields have been read and converted (`int(...)`, `name.strip()`):
validation first, then the duplicate-code check, then append. -/
def add_student (students : List Student) (code : Int) (name : List Char)
    (m1 m2 m3 exam : Int) : Except MErr (List Student) :=
  if name = [] then .error .ValidationError
  else if m1 < 0 ∨ m1 > 20 ∨ m2 < 0 ∨ m2 > 20 ∨ m3 < 0 ∨ m3 > 20 then .error .ValidationError
  else if exam < 0 ∨ exam > 100 then .error .ValidationError
  else if students.any (fun s => s.code == code) then .error .DuplicateCode
  else .ok (students ++ [⟨code, name, m1, m2, m3, exam⟩])

/-- The first-match index scan shared by `delete_student` and
`update_student` (lines 436-440 and 468-472). -/
def find_index (students : List Student) (code : Int) : Option Nat :=
  students.findIdx? (fun s => s.code == code)

/-- `StudentManager.delete_student` (lines 422-452), past input parsing and
the confirmation dialog: find the first index with the code, pop it. -/
def delete_student (students : List Student) (code : Int) : Except MErr (List Student) :=
  match find_index students code with
  | none => .error .NotFound
  | some i => .ok (students.eraseIdx i)

/-- `update_student` with its nested `save_changes` (lines 454-562), past
input parsing: find the record, validate the new fields, reject when any
record at another index already has the new code, else replace in place. -/
def update_student (students : List Student) (code new_code : Int) (name : List Char)
    (m1 m2 m3 exam : Int) : Except MErr (List Student) :=
  match find_index students code with
  | none => .error .NotFound
  | some found_index =>
    if name = [] then .error .ValidationError
    else if m1 < 0 ∨ m1 > 20 ∨ m2 < 0 ∨ m2 > 20 ∨ m3 < 0 ∨ m3 > 20 then .error .ValidationError
    else if exam < 0 ∨ exam > 100 then .error .ValidationError
    else if students.enum.any (fun p => p.2.code == new_code && p.1 != found_index) then
      .error .DuplicateCode
    else .ok (students.set found_index ⟨new_code, name, m1, m2, m3, exam⟩)

/-- `StudentManager.sort_students` (lines 313-335): stable sort of the
whole list by percentage, ascending when the user answers "1", else
descending (`reverse=True`).  Python's `list.sort` is a stable sort; a
stable sort w.r.t. a total preorder is unique, so `List.mergeSort`
embeds it exactly. -/
def sort_students (students : List Student) (ascending : Bool) : List Student :=
  if ascending then
    students.mergeSort (fun a b => decide (calculate_percentage a ≤ calculate_percentage b))
  else
    students.mergeSort (fun a b => decide (calculate_percentage b ≤ calculate_percentage a))

instance {ε α : Type _} [DecidableEq ε] [DecidableEq α] : DecidableEq (Except ε α) := fun a b =>
  match a, b with
  | .error e, .error f =>
    if h : e = f then isTrue (by rw [h]) else isFalse (by intro hh; cases hh; exact h rfl)
  | .ok x, .ok y =>
    if h : x = y then isTrue (by rw [h]) else isFalse (by intro hh; cases hh; exact h rfl)
  | .error _, .ok _ => isFalse (by intro hh; cases hh)
  | .ok _, .error _ => isFalse (by intro hh; cases hh)

/-- Load as claim C1 words it, to be compared with `load_data`: the first
line is skipped exactly when it parses as an integer (`pyInt?`), and every
other line contributes a record exactly when it parses as a six-field
record. -/
def loadSpec (lines : List (List Char)) : List Student :=
  match lines with
  | [] => []
  | l0 :: rest =>
    if (pyInt? l0).isSome then rest.filterMap parseLine
    else (l0 :: rest).filterMap parseLine

/-- The in-memory list together with the backing file's lines. -/
structure StoreState where
  students : List Student
  file : List (List Char)
deriving DecidableEq, Repr

/-- The four mutating menu actions. -/
inductive MutateOp where
  | add (code : Int) (name : List Char) (m1 m2 m3 exam : Int)
  | update (code new_code : Int) (name : List Char) (m1 m2 m3 exam : Int)
  | delete (code : Int)
  | sort (ascending : Bool)

/-- The in-memory effect of one mutating action; `none` when the handler
returns (with an error dialog) before touching the list. -/
def apply_mutate (students : List Student) : MutateOp → Option (List Student)
  | .add c n a b d e => (add_student students c n a b d e).toOption
  | .update c nc n a b d e => (update_student students c nc n a b d e).toOption
  | .delete c => (delete_student students c).toOption
  | .sort asc => some (sort_students students asc)

/-- One mutate-then-persist cycle.  Every handler mutates the in-memory
list first and only then calls `save_data`; when the write raises
(`io_ok = false`, so `save_data` returns `False`), the handler merely
skips the success dialog and refresh: the list keeps the mutation and the
file keeps its old content. -/
def run_mutate (st : StoreState) (op : MutateOp) (io_ok : Bool) : StoreState :=
  match apply_mutate st.students op with
  | none => st
  | some l => { students := l, file := if io_ok then save_data l else st.file }

/-- Claim C7: for every mutate operation (Add, Update, Delete, Sort), if
the Persist that follows it fails with IOError, the in-memory collection
still contains the applied mutation - the change is not rolled back on
persistence failure (and the backing file is untouched). -/
theorem claim_C7_thm (st : StoreState) (op : MutateOp) (l : List Student)
    (h : apply_mutate st.students op = some l) :
    (run_mutate st op false).students = l ∧
    (run_mutate st op false).file = st.file ∧
    (run_mutate st op false).students = (run_mutate st op true).students := by
  simp [run_mutate, h]

/-- Witness for C7: a concrete delete whose persist fails keeps the
shrunk list in memory and the file as it was. -/
theorem claim_C7_witness :
    (run_mutate ⟨[⟨1, ['A'], 1, 1, 1, 1⟩], [['x']]⟩ (.delete 1) false).students = [] ∧
    (run_mutate ⟨[⟨1, ['A'], 1, 1, 1, 1⟩], [['x']]⟩ (.delete 1) false).file = [['x']] ∧
    (run_mutate ⟨[⟨1, ['A'], 1, 1, 1, 1⟩], [['x']]⟩ (.delete 1) false).students =
      (run_mutate ⟨[⟨1, ['A'], 1, 1, 1, 1⟩], [['x']]⟩ (.delete 1) true).students :=
  claim_C7_thm ⟨[⟨1, ['A'], 1, 1, 1, 1⟩], [['x']]⟩ (.delete 1) [] (by decide)

/-- Claim C9: for every record whose three coursework marks lie in [0,20]
and whose exam mark lies in [0,100], the derived percentage
`(cm1 + cm2 + cm3 + exam) / 160 * 100` satisfies `0 ≤ percentage ≤ 100`. -/
theorem claim_C9_thm (s : Student)
    (h1 : 0 ≤ s.cm1) (h2 : s.cm1 ≤ 20) (h3 : 0 ≤ s.cm2) (h4 : s.cm2 ≤ 20)
    (h5 : 0 ≤ s.cm3) (h6 : s.cm3 ≤ 20) (h7 : 0 ≤ s.exam_mark) (h8 : s.exam_mark ≤ 100) :
    0 ≤ calculate_percentage s ∧ calculate_percentage s ≤ 100 := by
  have key : calculate_percentage s = ((s.cm1 + s.cm2 + s.cm3 + s.exam_mark : Int) : ℚ) * 5 / 8 := by
    unfold calculate_percentage
    push_cast
    ring
  have hlo : (0 : ℚ) ≤ ((s.cm1 + s.cm2 + s.cm3 + s.exam_mark : Int) : ℚ) := by
    exact_mod_cast by omega
  have hhi : ((s.cm1 + s.cm2 + s.cm3 + s.exam_mark : Int) : ℚ) ≤ 160 := by
    exact_mod_cast by omega
  rw [key]
  constructor <;> linarith

/-- Witness for C9 at a concrete in-bounds record. -/
theorem claim_C9_witness :
    0 ≤ calculate_percentage ⟨101, ['A'], 18, 17, 19, 82⟩ ∧
    calculate_percentage ⟨101, ['A'], 18, 17, 19, 82⟩ ≤ 100 :=
  claim_C9_thm ⟨101, ['A'], 18, 17, 19, 82⟩ (by decide) (by decide) (by decide) (by decide)
    (by decide) (by decide) (by decide) (by decide)

/-- Claim C8: the grade is the step function of percentage with thresholds
A at 70, B at 60, C at 50, D at 40 and F below; loading the single record
line `101,Alice,18,17,19,82` yields coursework sum 54, total 136,
percentage 85 and grade A. -/
theorem claim_C8_thm :
    (∀ p : ℚ, (get_grade p = 'A' ↔ 70 ≤ p) ∧
              (get_grade p = 'B' ↔ 60 ≤ p ∧ p < 70) ∧
              (get_grade p = 'C' ↔ 50 ≤ p ∧ p < 60) ∧
              (get_grade p = 'D' ↔ 40 ≤ p ∧ p < 50) ∧
              (get_grade p = 'F' ↔ p < 40)) ∧
    load_data [['1'], "101,Alice,18,17,19,82".toList] =
      [⟨101, "Alice".toList, 18, 17, 19, 82⟩] ∧
    (⟨101, "Alice".toList, 18, 17, 19, 82⟩ : Student).course_marks.sum = 54 ∧
    (⟨101, "Alice".toList, 18, 17, 19, 82⟩ : Student).course_marks.sum +
      (⟨101, "Alice".toList, 18, 17, 19, 82⟩ : Student).exam_mark = 136 ∧
    calculate_percentage ⟨101, "Alice".toList, 18, 17, 19, 82⟩ = 85 ∧
    get_grade (calculate_percentage ⟨101, "Alice".toList, 18, 17, 19, 82⟩) = 'A' := by
  refine ⟨?_, by decide, by decide, by decide, by norm_num [calculate_percentage], ?_⟩
  · intro p
    unfold get_grade
    split_ifs with h1 h2 h3 h4 <;>
      refine ⟨?_, ?_, ?_, ?_, ?_⟩ <;> simp <;>
      first
        | linarith
        | (rintro ⟨a, b⟩; linarith)
        | (constructor <;> linarith)
        | (intro a; linarith)
  · have hp : calculate_percentage ⟨101, "Alice".toList, 18, 17, 19, 82⟩ = 85 := by
      norm_num [calculate_percentage]
    rw [hp]
    unfold get_grade
    norm_num

lemma digitChar_isDigit (d : Nat) : (digitChar d).isDigit = true := by
  unfold digitChar
  split_ifs <;> decide

lemma digitChar_val {d : Nat} (h : d < 10) : (digitChar d).toNat - 48 = d := by
  interval_cases d <;> decide

lemma isSpace_eq_false_of_isDigit {c : Char} (h : c.isDigit = true) : isSpace c = false := by
  by_contra hc
  simp only [Bool.not_eq_false, isSpace, Bool.or_eq_true, decide_eq_true_eq] at hc
  rcases hc with ((((h1 | h1) | h1) | h1) | h1) | h1 <;> subst h1 <;> exact absurd h (by decide)

lemma comma_not_isDigit : (',').isDigit = false := by decide

lemma natDigits_ne_nil (n : Nat) : natDigits n ≠ [] := by
  rw [natDigits]
  split_ifs <;> simp

lemma natDigits_all_isDigit (n : Nat) : ∀ c ∈ natDigits n, c.isDigit = true := by
  induction n using Nat.strong_induction_on with
  | _ n ih =>
    rw [natDigits]
    split_ifs with h
    · intro c hc
      simp only [List.mem_singleton] at hc
      subst hc
      exact digitChar_isDigit n
    · intro c hc
      rcases List.mem_append.mp hc with h1 | h1
      · exact ih (n / 10) (Nat.div_lt_self (by omega) (by omega)) c h1
      · simp only [List.mem_singleton] at h1
        subst h1
        exact digitChar_isDigit (n % 10)

lemma isdigit_natDigits (n : Nat) : isdigit (natDigits n) = true := by
  have h1 := natDigits_ne_nil n
  have h2 := natDigits_all_isDigit n
  cases h : natDigits n with
  | nil => exact absurd h h1
  | cons c t =>
    rw [h] at h2
    simp only [isdigit, List.isEmpty_cons, Bool.not_false, Bool.true_and]
    exact List.all_eq_true.mpr h2

lemma digitsVal_append (l : List Char) (c : Char) :
    digitsVal (l ++ [c]) = 10 * digitsVal l + (c.toNat - 48) := by
  simp [digitsVal, List.foldl_append]

lemma digitsVal_natDigits (n : Nat) : digitsVal (natDigits n) = n := by
  induction n using Nat.strong_induction_on with
  | _ n ih =>
    rw [natDigits]
    split_ifs with h
    · simp [digitsVal, digitChar_val h]
    · rw [digitsVal_append, ih (n / 10) (Nat.div_lt_self (by omega) (by omega)),
        digitChar_val (Nat.mod_lt n (by omega))]
      omega

lemma dropWhile_isSpace_of_forall {l : List Char} (h : ∀ c ∈ l, isSpace c = false) :
    l.dropWhile isSpace = l := by
  cases l with
  | nil => rfl
  | cons c t => simp [List.dropWhile_cons, h c (by simp)]

lemma stripChars_eq_self_of_forall {l : List Char} (h : ∀ c ∈ l, isSpace c = false) :
    stripChars l = l := by
  unfold stripChars
  rw [dropWhile_isSpace_of_forall h,
    dropWhile_isSpace_of_forall (fun c hc => h c (List.mem_reverse.mp hc)),
    List.reverse_reverse]

lemma stripChars_eq_self {l : List Char} (h1 : l.dropWhile isSpace = l)
    (h2 : l.reverse.dropWhile isSpace = l.reverse) : stripChars l = l := by
  unfold stripChars
  rw [h1, h2, List.reverse_reverse]

lemma stripChars_append_newline (l : List Char) : stripChars (l ++ ['\n']) = stripChars l := by
  unfold stripChars
  rw [List.dropWhile_append]
  cases hd : l.dropWhile isSpace with
  | nil =>
    have h0 : List.dropWhile isSpace ['\n'] = [] := by decide
    simp [h0]
  | cons c t =>
    simp only [List.isEmpty_cons, Bool.false_eq_true, if_false]
    rw [List.reverse_append]
    simp only [List.reverse_cons, List.reverse_nil, List.nil_append, List.singleton_append]
    rw [List.dropWhile_cons, if_pos (by decide : isSpace '\n' = true)]

lemma stripChars_natDigits (n : Nat) : stripChars (natDigits n) = natDigits n :=
  stripChars_eq_self_of_forall
    (fun c hc => isSpace_eq_false_of_isDigit (natDigits_all_isDigit n c hc))

lemma splitOnComma_ne_nil (l : List Char) : splitOnComma l ≠ [] := by
  cases l with
  | nil => simp [splitOnComma]
  | cons c t =>
    unfold splitOnComma
    split_ifs
    · simp
    · cases splitOnComma t <;> simp

lemma splitOnComma_cons_of {c : Char} {t f : List Char} {fs : List (List Char)}
    (hc : ¬c = ',') (h : splitOnComma t = f :: fs) :
    splitOnComma (c :: t) = (c :: f) :: fs := by
  unfold splitOnComma
  rw [if_neg hc, h]

lemma splitOnComma_eq_singleton {l : List Char} (h : ',' ∉ l) : splitOnComma l = [l] := by
  induction l with
  | nil => rfl
  | cons c t ih =>
    have hc : ¬(c = ',') := fun hh => h (by simp [hh])
    have ht : ',' ∉ t := fun hh => h (by simp [hh])
    exact splitOnComma_cons_of hc (ih ht)

lemma splitOnComma_append {a r : List Char} (h : ',' ∉ a) :
    splitOnComma (a ++ ',' :: r) = a :: splitOnComma r := by
  induction a with
  | nil => simp [splitOnComma]
  | cons c t ih =>
    have hc : ¬(c = ',') := fun hh => h (by simp [hh])
    have ht : ',' ∉ t := fun hh => h (by simp [hh])
    rw [List.cons_append, splitOnComma_cons_of hc (ih ht)]

lemma mem_splitOnComma_no_comma {l p : List Char} (hp : p ∈ splitOnComma l) : ',' ∉ p := by
  induction l generalizing p with
  | nil =>
    simp only [splitOnComma, List.mem_singleton] at hp
    subst hp
    simp
  | cons c t ih =>
    unfold splitOnComma at hp
    split_ifs at hp with hc
    · rcases List.mem_cons.mp hp with h1 | h1
      · subst h1; simp
      · exact ih h1
    · cases hsp : splitOnComma t with
      | nil => exact absurd hsp (splitOnComma_ne_nil t)
      | cons f fs =>
        rw [hsp] at hp
        rcases List.mem_cons.mp hp with h1 | h1
        · subst h1
          intro hmem
          rcases List.mem_cons.mp hmem with h2 | h2
          · exact hc h2.symm
          · exact ih (hsp ▸ List.mem_cons_self f fs) h2
        · exact ih (hsp ▸ List.mem_cons_of_mem f h1)

lemma intToChars_no_comma (k : Int) : ',' ∉ intToChars k := by
  intro hmem
  unfold intToChars at hmem
  split_ifs at hmem with h
  · rcases List.mem_cons.mp hmem with h1 | h1
    · exact absurd h1 (by decide)
    · exact absurd (natDigits_all_isDigit _ ',' h1) (by decide)
  · exact absurd (natDigits_all_isDigit _ ',' hmem) (by decide)

lemma intToChars_head (k : Int) : ∃ c t, intToChars k = c :: t ∧ isSpace c = false := by
  unfold intToChars
  split_ifs with h
  · exact ⟨'-', natDigits (-k).toNat, rfl, by decide⟩
  · cases hd : natDigits k.toNat with
    | nil => exact absurd hd (natDigits_ne_nil _)
    | cons c t =>
      refine ⟨c, t, rfl, isSpace_eq_false_of_isDigit ?_⟩
      exact natDigits_all_isDigit _ c (hd ▸ List.mem_cons_self c t)

lemma intToChars_last (k : Int) : ∃ a d, intToChars k = a ++ [d] ∧ d.isDigit = true := by
  have key : ∀ n : Nat, ∃ a d, natDigits n = a ++ [d] ∧ d.isDigit = true := by
    intro n
    rcases List.eq_nil_or_concat (natDigits n) with h | ⟨a, d, h⟩
    · exact absurd h (natDigits_ne_nil n)
    · rw [List.concat_eq_append] at h
      exact ⟨a, d, h, natDigits_all_isDigit n d (h ▸ by simp)⟩
  unfold intToChars
  split_ifs with h
  · obtain ⟨a, d, ha, hd⟩ := key (-k).toNat
    exact ⟨'-' :: a, d, by rw [ha, List.cons_append], hd⟩
  · exact key k.toNat

lemma pyInt?_intToChars (k : Int) : pyInt? (intToChars k) = some k := by
  by_cases hk : k < 0
  · have hit : intToChars k = '-' :: natDigits (-k).toNat := by
      unfold intToChars
      rw [if_pos hk]
    have hstrip : stripChars (intToChars k) = '-' :: natDigits (-k).toNat := by
      rw [hit]
      apply stripChars_eq_self_of_forall
      intro c hc
      rcases List.mem_cons.mp hc with h1 | h1
      · subst h1; decide
      · exact isSpace_eq_false_of_isDigit (natDigits_all_isDigit _ c h1)
    have hnotdig : isdigit ('-' :: natDigits (-k).toNat) = false := by
      simp [isdigit, List.all_cons]
    unfold pyInt?
    rw [hstrip, hnotdig]
    simp [isdigit_natDigits, digitsVal_natDigits]
    omega
  · have hit : intToChars k = natDigits k.toNat := by
      unfold intToChars
      rw [if_neg hk]
    unfold pyInt?
    rw [hit, stripChars_natDigits, isdigit_natDigits]
    simp [digitsVal_natDigits]
    omega

lemma stripChars_save_line (s : Student) : stripChars (save_line s ++ ['\n']) = save_line s := by
  rw [stripChars_append_newline]
  apply stripChars_eq_self
  · obtain ⟨c, t, hct, hc⟩ := intToChars_head s.code
    unfold save_line
    rw [hct]
    simp [List.dropWhile_cons, hc]
  · obtain ⟨a, d, had, hd⟩ := intToChars_last s.exam_mark
    have hform : save_line s =
        (intToChars s.code ++ ',' :: (s.name ++ ',' :: (intToChars s.cm1 ++ ',' ::
          (intToChars s.cm2 ++ ',' :: (intToChars s.cm3 ++ ',' :: a))))) ++ [d] := by
      unfold save_line
      rw [had]
      simp [List.append_assoc]
    rw [hform, List.reverse_append]
    simp only [List.reverse_cons, List.reverse_nil, List.nil_append, List.singleton_append]
    rw [List.dropWhile_cons, if_neg (by simp [isSpace_eq_false_of_isDigit hd])]

lemma splitOnComma_save_line (s : Student) (h : ',' ∉ s.name) :
    splitOnComma (save_line s) =
      [intToChars s.code, s.name, intToChars s.cm1, intToChars s.cm2, intToChars s.cm3,
        intToChars s.exam_mark] := by
  unfold save_line
  rw [splitOnComma_append (intToChars_no_comma _), splitOnComma_append h,
    splitOnComma_append (intToChars_no_comma _), splitOnComma_append (intToChars_no_comma _),
    splitOnComma_append (intToChars_no_comma _),
    splitOnComma_eq_singleton (intToChars_no_comma _)]

lemma parseLine_save_line (s : Student) (h : ',' ∉ s.name) :
    parseLine (save_line s ++ ['\n']) = some s := by
  unfold parseLine
  rw [stripChars_save_line, splitOnComma_save_line s h]
  simp [pyInt?_intToChars]

lemma load_data_cons (l0 : List Char) (rest : List (List Char)) :
    load_data (l0 :: rest) =
      if isdigit (stripChars l0) then rest.filterMap parseLine
      else (l0 :: rest).filterMap parseLine := rfl

lemma loadSpec_cons (l0 : List Char) (rest : List (List Char)) :
    loadSpec (l0 :: rest) =
      if (pyInt? l0).isSome then rest.filterMap parseLine
      else (l0 :: rest).filterMap parseLine := rfl

lemma name_no_comma_of_parseLine {line : List Char} {s : Student}
    (h : parseLine line = some s) : ',' ∉ s.name := by
  unfold parseLine at h
  split at h
  case _ d0 d1 d2 d3 d4 d5 heq =>
    split at h
    case _ =>
      injection h with h
      subst h
      have hmem : d1 ∈ splitOnComma (stripChars line) := by
        rw [heq]
        simp
      exact mem_splitOnComma_no_comma hmem
    case _ => exact absurd h (by simp)
  case _ => exact absurd h (by simp)

lemma mem_load_data_no_comma {lines : List (List Char)} {s : Student}
    (h : s ∈ load_data lines) : ',' ∉ s.name := by
  have key : ∀ L : List (List Char), s ∈ L.filterMap parseLine → ',' ∉ s.name := by
    intro L hL
    obtain ⟨line, _, hp⟩ := List.mem_filterMap.mp hL
    exact name_no_comma_of_parseLine hp
  cases lines with
  | nil => simp [load_data] at h
  | cons l0 rest =>
    rw [load_data_cons] at h
    split_ifs at h with h0
    · exact key rest h
    · exact key (l0 :: rest) h

lemma filterMap_parse_save {c : List Student} (h : ∀ s ∈ c, ',' ∉ s.name) :
    (c.map (fun s => save_line s ++ ['\n'])).filterMap parseLine = c := by
  induction c with
  | nil => rfl
  | cons s t ih =>
    rw [List.map_cons, List.filterMap_cons, parseLine_save_line s (h s (by simp))]
    rw [ih (fun x hx => h x (by simp [hx]))]

lemma isdigit_strip_count (n : Nat) :
    isdigit (stripChars (natDigits n ++ ['\n'])) = true := by
  rw [stripChars_append_newline, stripChars_natDigits]
  exact isdigit_natDigits n

/-- Claim C2: for every collection obtainable by Load from some delimited
input, persisting it and loading the result again yields a collection
identical record for record (codes, names, marks, order) to the persisted
one. -/
theorem claim_C2_thm (lines : List (List Char)) :
    load_data (save_data (load_data lines)) = load_data lines := by
  have hnm : ∀ s ∈ load_data lines, ',' ∉ s.name := fun s hs => mem_load_data_no_comma hs
  unfold save_data
  rw [load_data_cons, if_pos (isdigit_strip_count (load_data lines).length)]
  exact filterMap_parse_save hnm

lemma pyInt?_isSome_no_comma {l : List Char} (h : (pyInt? l).isSome) : ',' ∉ stripChars l := by
  unfold pyInt? at h
  split_ifs at h with h1 h2 h3
  · intro hmem
    have hall := List.all_eq_true.mp ((Bool.and_eq_true _ _).mp h1).2
    exact absurd (hall ',' hmem) (by decide)
  · obtain ⟨hhead, htail⟩ := h2
    intro hmem
    cases hs : stripChars l with
    | nil => rw [hs] at hmem; simp at hmem
    | cons c t =>
      rw [hs] at hhead htail hmem
      simp only [List.head?_cons, Option.some.injEq] at hhead
      simp only [List.tail_cons] at htail
      rcases List.mem_cons.mp hmem with hm | hm
      · rw [hhead] at hm
        exact absurd hm (by decide)
      · have hall := List.all_eq_true.mp ((Bool.and_eq_true _ _).mp htail).2
        exact absurd (hall ',' hm) (by decide)
  · obtain ⟨hhead, htail⟩ := h3
    intro hmem
    cases hs : stripChars l with
    | nil => rw [hs] at hmem; simp at hmem
    | cons c t =>
      rw [hs] at hhead htail hmem
      simp only [List.head?_cons, Option.some.injEq] at hhead
      simp only [List.tail_cons] at htail
      rcases List.mem_cons.mp hmem with hm | hm
      · rw [hhead] at hm
        exact absurd hm (by decide)
      · have hall := List.all_eq_true.mp ((Bool.and_eq_true _ _).mp htail).2
        exact absurd (hall ',' hm) (by decide)
  · simp at h

lemma parseLine_eq_none_of_pyInt {l : List Char} (h : (pyInt? l).isSome) :
    parseLine l = none := by
  unfold parseLine
  rw [splitOnComma_eq_singleton (pyInt?_isSome_no_comma h)]

lemma isdigit_strip_imp_pyInt {l : List Char} (h : isdigit (stripChars l) = true) :
    (pyInt? l).isSome := by
  unfold pyInt?
  rw [if_pos h]
  rfl

/-- Claim C1: Load's result is the in-file-order sequence of records
parsed from the well-formed lines; the first line is skipped if and only
if it parses as an integer, and every other line is kept exactly when it
parses as a six-field record with integer numeric fields.  `loadSpec` is
that wording; it agrees with `load_data` on every input. -/
theorem claim_C1_thm (lines : List (List Char)) : load_data lines = loadSpec lines := by
  cases lines with
  | nil => rfl
  | cons l0 rest =>
    rw [load_data_cons, loadSpec_cons]
    by_cases h : isdigit (stripChars l0) = true
    · rw [if_pos h, if_pos (isdigit_strip_imp_pyInt h)]
    · rw [if_neg h]
      by_cases h2 : (pyInt? l0).isSome
      · rw [if_pos h2, List.filterMap_cons, parseLine_eq_none_of_pyInt h2]
      · rw [if_neg h2]

lemma run_mutate_of_none {st : StoreState} {op : MutateOp}
    (h : apply_mutate st.students op = none) (io_ok : Bool) : run_mutate st op io_ok = st := by
  unfold run_mutate
  rw [h]

/-- Claim C3 counterexample: with record code 1 present and an empty name,
Add returns ValidationError, not DuplicateCode - the validation checks run
before the duplicate check, so "fails with DuplicateCode exactly when the
code is already present" is false as stated. -/
theorem claim_C3_counterexample :
    ¬(add_student [⟨1, ['A'], 1, 1, 1, 1⟩] 1 [] 1 1 1 1 = .error .DuplicateCode ↔
        ∃ s ∈ [(⟨1, ['A'], 1, 1, 1, 1⟩ : Student)], s.code = 1) := by
  decide

/-- Claim C3 amended: Add fails with ValidationError exactly when the name
is empty or a coursework mark is outside [0,20] or the exam mark is outside
[0,100] (these checks run first); it fails with DuplicateCode exactly when
the fields pass validation and a record with the given code is already in
the collection; on success the new record is appended at the end and
GetByCode(code) returns it; on any failure the store (collection and file)
is unchanged. -/
theorem claim_C3_amended (students : List Student) (code : Int) (name : List Char)
    (m1 m2 m3 exam : Int) :
    (add_student students code name m1 m2 m3 exam = .error .ValidationError ↔
      name = [] ∨ m1 < 0 ∨ m1 > 20 ∨ m2 < 0 ∨ m2 > 20 ∨ m3 < 0 ∨ m3 > 20 ∨
        exam < 0 ∨ exam > 100) ∧
    (add_student students code name m1 m2 m3 exam = .error .DuplicateCode ↔
      ¬(name = [] ∨ m1 < 0 ∨ m1 > 20 ∨ m2 < 0 ∨ m2 > 20 ∨ m3 < 0 ∨ m3 > 20 ∨
          exam < 0 ∨ exam > 100) ∧ ∃ s ∈ students, s.code = code) ∧
    (∀ l, add_student students code name m1 m2 m3 exam = .ok l →
      l = students ++ [⟨code, name, m1, m2, m3, exam⟩] ∧
      get_by_code l code = some ⟨code, name, m1, m2, m3, exam⟩) ∧
    (∀ e, add_student students code name m1 m2 m3 exam = .error e →
      ∀ file io_ok, run_mutate ⟨students, file⟩ (.add code name m1 m2 m3 exam) io_ok =
        ⟨students, file⟩) := by
  refine ⟨?_, ?_, ?_, ?_⟩
  · unfold add_student
    split_ifs with h1 h2 h3 h4 <;> simp_all <;> tauto
  · unfold add_student
    split_ifs with h1 h2 h3 h4 <;>
      simp_all [List.any_eq_true, beq_iff_eq] <;> omega
  · intro l hl
    unfold add_student at hl
    by_cases h1 : name = []
    · rw [if_pos h1] at hl
      exact absurd hl (by simp)
    rw [if_neg h1] at hl
    by_cases h2 : m1 < 0 ∨ m1 > 20 ∨ m2 < 0 ∨ m2 > 20 ∨ m3 < 0 ∨ m3 > 20
    · rw [if_pos h2] at hl
      exact absurd hl (by simp)
    rw [if_neg h2] at hl
    by_cases h3 : exam < 0 ∨ exam > 100
    · rw [if_pos h3] at hl
      exact absurd hl (by simp)
    rw [if_neg h3] at hl
    by_cases h4 : (students.any fun s => s.code == code) = true
    · rw [if_pos h4] at hl
      exact absurd hl (by simp)
    rw [if_neg h4] at hl
    · injection hl with hl
      subst hl
      refine ⟨rfl, ?_⟩
      unfold get_by_code
      rw [List.find?_append]
      have hnone : students.find? (fun s => s.code == code) = none := by
        rw [List.find?_eq_none]
        intro x hx
        simp only [beq_iff_eq, Bool.not_eq_true]
        intro hcx
        exact h4 (List.any_eq_true.mpr ⟨x, hx, by simp [hcx]⟩)
      rw [hnone, Option.none_or]
      simp [List.find?]
  · intro e he file io_ok
    apply run_mutate_of_none
    show (add_student students code name m1 m2 m3 exam).toOption = none
    rw [he]
    rfl

/-- Witness for C3 (amended): a concrete successful Add appends the record
and GetByCode finds it. -/
theorem claim_C3_witness :
    get_by_code [⟨1, ['A'], 1, 1, 1, 1⟩, ⟨2, ['B'], 2, 2, 2, 2⟩] 2 =
      some ⟨2, ['B'], 2, 2, 2, 2⟩ :=
  ((claim_C3_amended [⟨1, ['A'], 1, 1, 1, 1⟩] 2 ['B'] 2 2 2 2).2.2.1
    [⟨1, ['A'], 1, 1, 1, 1⟩, ⟨2, ['B'], 2, 2, 2, 2⟩] (by decide)).2

lemma update_student_of_none {students : List Student} {code : Int}
    (h : find_index students code = none) (new_code : Int) (name : List Char)
    (m1 m2 m3 exam : Int) :
    update_student students code new_code name m1 m2 m3 exam = .error .NotFound := by
  unfold update_student
  rw [h]

lemma update_student_of_some {students : List Student} {code : Int} {i : Nat}
    (h : find_index students code = some i) (new_code : Int) (name : List Char)
    (m1 m2 m3 exam : Int) :
    update_student students code new_code name m1 m2 m3 exam =
      (if name = [] then .error .ValidationError
       else if m1 < 0 ∨ m1 > 20 ∨ m2 < 0 ∨ m2 > 20 ∨ m3 < 0 ∨ m3 > 20 then
         .error .ValidationError
       else if exam < 0 ∨ exam > 100 then .error .ValidationError
       else if students.enum.any (fun p => p.2.code == new_code && p.1 != i) then
         .error .DuplicateCode
       else .ok (students.set i ⟨new_code, name, m1, m2, m3, exam⟩)) := by
  unfold update_student
  rw [h]

lemma enum_any_code_iff {students : List Student} {new_code : Int} {i : Nat} :
    (students.enum.any fun p => p.2.code == new_code && p.1 != i) = true ↔
      ∃ j, ∃ h : j < students.length, j ≠ i ∧ (students.get ⟨j, h⟩).code = new_code := by
  rw [List.any_eq_true]
  constructor
  · rintro ⟨⟨j, s⟩, hmem, hp⟩
    rw [List.mem_enum_iff_getElem?] at hmem
    obtain ⟨hlt, hget⟩ := List.getElem?_eq_some_iff.mp hmem
    simp only [Bool.and_eq_true, beq_iff_eq, bne_iff_ne] at hp
    refine ⟨j, hlt, hp.2, ?_⟩
    rw [List.get_eq_getElem, hget]
    exact hp.1
  · rintro ⟨j, hlt, hne, hcode⟩
    refine ⟨(j, students.get ⟨j, hlt⟩), ?_, ?_⟩
    · rw [List.mem_enum_iff_getElem?]
      simp [List.getElem?_eq_getElem hlt]
    · simp only [Bool.and_eq_true, beq_iff_eq, bne_iff_ne]
      exact ⟨hcode, hne⟩

/-- Claim C4 counterexample: in a collection holding two records with code
1 (such a state is reachable, since Load never checks uniqueness),
updating code 1 while keeping the same code fails with DuplicateCode even
though the new code does not differ from the old one - so "fails with
DuplicateCode exactly when the new code differs from the old one and
collides" is false as stated. -/
theorem claim_C4_counterexample :
    ¬(update_student [⟨1, ['A'], 1, 1, 1, 1⟩, ⟨1, ['B'], 1, 1, 1, 1⟩] 1 1 ['C'] 1 1 1 1 =
        .error .DuplicateCode ↔
      (1 : Int) ≠ 1 ∧ ∃ s ∈ [(⟨1, ['A'], 1, 1, 1, 1⟩ : Student), ⟨1, ['B'], 1, 1, 1, 1⟩],
        s.code = 1 ∧ s ≠ ⟨1, ['A'], 1, 1, 1, 1⟩) := by
  decide

/-- Claim C4 amended: Update fails with NotFound exactly when no record
has the given code (checked first); with the record found at index i it
fails with ValidationError exactly as Add does (checked next); it fails
with DuplicateCode exactly when the fields pass validation and some record
at an index other than i carries the new code (when codes are unique this
is the claim's "new code differs and collides with another record"); on
success the updated record replaces the old one at index i and every other
position is unchanged. -/
theorem claim_C4_amended (students : List Student) (code new_code : Int) (name : List Char)
    (m1 m2 m3 exam : Int) :
    (update_student students code new_code name m1 m2 m3 exam = .error .NotFound ↔
      ∀ s ∈ students, s.code ≠ code) ∧
    (∀ i, find_index students code = some i →
      ((update_student students code new_code name m1 m2 m3 exam = .error .ValidationError ↔
        name = [] ∨ m1 < 0 ∨ m1 > 20 ∨ m2 < 0 ∨ m2 > 20 ∨ m3 < 0 ∨ m3 > 20 ∨
          exam < 0 ∨ exam > 100) ∧
      (update_student students code new_code name m1 m2 m3 exam = .error .DuplicateCode ↔
        ¬(name = [] ∨ m1 < 0 ∨ m1 > 20 ∨ m2 < 0 ∨ m2 > 20 ∨ m3 < 0 ∨ m3 > 20 ∨
            exam < 0 ∨ exam > 100) ∧
        ∃ j, ∃ h : j < students.length, j ≠ i ∧ (students.get ⟨j, h⟩).code = new_code) ∧
      (∀ l, update_student students code new_code name m1 m2 m3 exam = .ok l →
        l = students.set i ⟨new_code, name, m1, m2, m3, exam⟩ ∧
        l.length = students.length ∧
        l[i]? = some ⟨new_code, name, m1, m2, m3, exam⟩ ∧
        ∀ j, j ≠ i → l[j]? = students[j]?))) := by
  constructor
  · cases hfi : find_index students code with
    | none =>
      rw [update_student_of_none hfi]
      refine ⟨fun _ s hs => ?_, fun _ => rfl⟩
      have hb := List.findIdx?_eq_none_iff.mp hfi s hs
      simpa [beq_eq_false_iff_ne] using hb
    | some i =>
      obtain ⟨hlt, hp, _⟩ := List.findIdx?_eq_some_iff_getElem.mp hfi
      have hmem : students[i] ∈ students := List.getElem_mem hlt
      have hcode : students[i].code = code := by simpa [beq_iff_eq] using hp
      rw [update_student_of_some hfi]
      constructor
      · intro h
        split_ifs at h <;> simp_all
      · intro hall
        exact absurd hcode (hall students[i] hmem)
  · intro i hfi
    have hlt : i < students.length := (List.findIdx?_eq_some_iff_getElem.mp hfi).1
    rw [update_student_of_some hfi]
    refine ⟨?_, ?_, ?_⟩
    · split_ifs with h1 h2 h3 h4 <;> simp_all <;> omega
    · split_ifs with h1 h2 h3 h4
      · constructor
        · intro h
          exact absurd h (by simp)
        · rintro ⟨hnd, -⟩
          exact absurd (Or.inl h1) hnd
      · constructor
        · intro h
          exact absurd h (by simp)
        · rintro ⟨hnd, -⟩
          refine absurd ?_ hnd
          tauto
      · constructor
        · intro h
          exact absurd h (by simp)
        · rintro ⟨hnd, -⟩
          refine absurd ?_ hnd
          tauto
      · constructor
        · intro _
          refine ⟨?_, enum_any_code_iff.mp h4⟩
          tauto
        · intro _
          rfl
      · constructor
        · intro h
          exact absurd h (by simp)
        · rintro ⟨-, hex⟩
          exact h4 (enum_any_code_iff.mpr hex)
    · intro l hl
      by_cases h1 : name = []
      · rw [if_pos h1] at hl
        exact absurd hl (by simp)
      rw [if_neg h1] at hl
      by_cases h2 : m1 < 0 ∨ m1 > 20 ∨ m2 < 0 ∨ m2 > 20 ∨ m3 < 0 ∨ m3 > 20
      · rw [if_pos h2] at hl
        exact absurd hl (by simp)
      rw [if_neg h2] at hl
      by_cases h3 : exam < 0 ∨ exam > 100
      · rw [if_pos h3] at hl
        exact absurd hl (by simp)
      rw [if_neg h3] at hl
      by_cases h4 : (students.enum.any fun p => p.2.code == new_code && p.1 != i) = true
      · rw [if_pos h4] at hl
        exact absurd hl (by simp)
      rw [if_neg h4] at hl
      injection hl with hl
      subst hl
      refine ⟨rfl, List.length_set students i _, List.getElem?_set_self hlt, ?_⟩
      intro j hj
      exact List.getElem?_set_ne (fun hh => hj hh.symm)

/-- Witness for C4 (amended): a concrete successful Update replaces the
record in place and leaves the other position unchanged. -/
theorem claim_C4_witness :
    [⟨1, ['A'], 1, 1, 1, 1⟩, ⟨3, ['C'], 3, 3, 3, 3⟩] =
      ([⟨1, ['A'], 1, 1, 1, 1⟩, ⟨2, ['B'], 2, 2, 2, 2⟩] : List Student).set 1
        ⟨3, ['C'], 3, 3, 3, 3⟩ :=
  (((claim_C4_amended [⟨1, ['A'], 1, 1, 1, 1⟩, ⟨2, ['B'], 2, 2, 2, 2⟩] 2 3 ['C'] 3 3 3 3).2
    1 (by decide)).2.2 [⟨1, ['A'], 1, 1, 1, 1⟩, ⟨3, ['C'], 3, 3, 3, 3⟩] (by decide)).1

lemma delete_student_of_none {students : List Student} {code : Int}
    (h : find_index students code = none) :
    delete_student students code = .error .NotFound := by
  unfold delete_student
  rw [h]

lemma delete_student_of_some {students : List Student} {code : Int} {i : Nat}
    (h : find_index students code = some i) :
    delete_student students code = .ok (students.eraseIdx i) := by
  unfold delete_student
  rw [h]

/-- Claim C5 counterexample: in a collection holding two records with code
1 (reachable, since Load never checks uniqueness), Delete(1) succeeds and
removes only the first of them, after which GetByCode(1) still returns a
record - so "a subsequent GetByCode(code) fails with NotFound" is false as
stated. -/
theorem claim_C5_counterexample :
    delete_student [⟨1, ['A'], 1, 1, 1, 1⟩, ⟨1, ['B'], 1, 1, 1, 1⟩] 1 =
      .ok [⟨1, ['B'], 1, 1, 1, 1⟩] ∧
    get_by_code [⟨1, ['B'], 1, 1, 1, 1⟩] 1 ≠ none := by
  decide

/-- Claim C5 amended: Delete fails with NotFound exactly when no record
has the given code; on success it removes the first record with that code
(at its index i), the length decreases by exactly 1, the relative order of
the remaining records is preserved (the result is `eraseIdx`), and when no
other record shares the code a subsequent GetByCode(code) returns
nothing. -/
theorem claim_C5_amended (students : List Student) (code : Int) :
    (delete_student students code = .error .NotFound ↔ ∀ s ∈ students, s.code ≠ code) ∧
    ∀ i, find_index students code = some i →
      delete_student students code = .ok (students.eraseIdx i) ∧
      (students.eraseIdx i).length + 1 = students.length ∧
      ((∀ j (hj : j < students.length), (students.get ⟨j, hj⟩).code = code → j = i) →
        get_by_code (students.eraseIdx i) code = none) := by
  constructor
  · cases hfi : find_index students code with
    | none =>
      rw [delete_student_of_none hfi]
      refine ⟨fun _ s hs => ?_, fun _ => rfl⟩
      have hb := List.findIdx?_eq_none_iff.mp hfi s hs
      simpa [beq_eq_false_iff_ne] using hb
    | some i =>
      obtain ⟨hlt, hp, -⟩ := List.findIdx?_eq_some_iff_getElem.mp hfi
      have hcode : students[i].code = code := by simpa [beq_iff_eq] using hp
      rw [delete_student_of_some hfi]
      constructor
      · intro h
        exact absurd h (by simp)
      · intro hall
        exact absurd hcode (hall students[i] (List.getElem_mem hlt))
  · intro i hfi
    have hlt : i < students.length := (List.findIdx?_eq_some_iff_getElem.mp hfi).1
    refine ⟨delete_student_of_some hfi, ?_, ?_⟩
    · rw [List.length_eraseIdx, if_pos hlt]
      omega
    · intro huniq
      unfold get_by_code
      rw [List.find?_eq_none]
      intro x hx
      simp only [beq_iff_eq, Bool.not_eq_true]
      obtain ⟨j, hj, hji, hxj⟩ := List.mem_eraseIdx_iff_getElem.mp hx
      intro hxc
      apply hji
      apply huniq j hj
      rw [List.get_eq_getElem]
      rw [hxj]
      exact hxc

/-- Witness for C5 (amended): deleting the unique record with code 1 from
a concrete two-record collection makes GetByCode(1) return nothing. -/
theorem claim_C5_witness :
    get_by_code (([⟨1, ['A'], 1, 1, 1, 1⟩, ⟨2, ['B'], 2, 2, 2, 2⟩] : List Student).eraseIdx 0)
      1 = none :=
  ((claim_C5_amended [⟨1, ['A'], 1, 1, 1, 1⟩, ⟨2, ['B'], 2, 2, 2, 2⟩] 1).2 0 (by decide)).2.2
    (by decide)

lemma sort_students_true (students : List Student) :
    sort_students students true =
      students.mergeSort (fun a b => decide (calculate_percentage a ≤ calculate_percentage b)) :=
  rfl

lemma sort_students_false (students : List Student) :
    sort_students students false =
      students.mergeSort (fun a b => decide (calculate_percentage b ≤ calculate_percentage a)) :=
  rfl

lemma mergeSort_filter_eq {le : Student → Student → Bool}
    (htrans : ∀ a b c, le a b = true → le b c = true → le a c = true)
    (htotal : ∀ a b, (le a b || le b a) = true)
    (p : Student → Bool)
    (hp : ∀ a b, p a = true → p b = true → le a b = true) (l : List Student) :
    (l.mergeSort le).filter p = l.filter p := by
  have hsub : (l.filter p).Sublist l := List.filter_sublist l
  have hpw : (l.filter p).Pairwise (fun a b => le a b = true) :=
    List.pairwise_of_forall_mem_list
      (fun a ha b hb => hp a b (List.of_mem_filter ha) (List.of_mem_filter hb))
  have hsub2 : (l.filter p).Sublist (l.mergeSort le) :=
    List.sublist_mergeSort htrans htotal hpw hsub
  have hfself : (l.filter p).filter p = l.filter p :=
    List.filter_eq_self.mpr (fun a ha => List.of_mem_filter ha)
  have hsub3 : (l.filter p).Sublist ((l.mergeSort le).filter p) := by
    have := List.Sublist.filter p hsub2
    rwa [hfself] at this
  have hperm : ((l.mergeSort le).filter p).Perm (l.filter p) :=
    (List.mergeSort_perm l le).filter p
  exact (hsub3.eq_of_length hperm.length_eq.symm).symm

/-- Claim C6: Sort(ascending) and Sort(descending) each produce a
permutation of the collection whose percentages are non-decreasing
respectively non-increasing, and the sort is stable: for every percentage
value, the subsequence of records carrying it is unchanged, so records
with equal percentage keep their original relative order. -/
theorem claim_C6_thm (students : List Student) :
    (sort_students students true).Perm students ∧
    (sort_students students false).Perm students ∧
    List.Pairwise (fun a b => calculate_percentage a ≤ calculate_percentage b)
      (sort_students students true) ∧
    List.Pairwise (fun a b => calculate_percentage b ≤ calculate_percentage a)
      (sort_students students false) ∧
    (∀ (ascending : Bool) (q : ℚ),
      (sort_students students ascending).filter (fun s => decide (calculate_percentage s = q)) =
        students.filter (fun s => decide (calculate_percentage s = q))) := by
  have htransA : ∀ a b c : Student,
      decide (calculate_percentage a ≤ calculate_percentage b) = true →
      decide (calculate_percentage b ≤ calculate_percentage c) = true →
      decide (calculate_percentage a ≤ calculate_percentage c) = true := by
    intro a b c hab hbc
    simp only [decide_eq_true_eq] at hab hbc ⊢
    exact le_trans hab hbc
  have htotalA : ∀ a b : Student,
      (decide (calculate_percentage a ≤ calculate_percentage b) ||
        decide (calculate_percentage b ≤ calculate_percentage a)) = true := by
    intro a b
    simp [le_total]
  have htransD : ∀ a b c : Student,
      decide (calculate_percentage b ≤ calculate_percentage a) = true →
      decide (calculate_percentage c ≤ calculate_percentage b) = true →
      decide (calculate_percentage c ≤ calculate_percentage a) = true := by
    intro a b c hab hbc
    simp only [decide_eq_true_eq] at hab hbc ⊢
    exact le_trans hbc hab
  have htotalD : ∀ a b : Student,
      (decide (calculate_percentage b ≤ calculate_percentage a) ||
        decide (calculate_percentage a ≤ calculate_percentage b)) = true := by
    intro a b
    simp [le_total]
  refine ⟨?_, ?_, ?_, ?_, ?_⟩
  · rw [sort_students_true]
    exact List.mergeSort_perm students _
  · rw [sort_students_false]
    exact List.mergeSort_perm students _
  · rw [sort_students_true]
    exact (List.sorted_mergeSort htransA htotalA students).imp of_decide_eq_true
  · rw [sort_students_false]
    exact (List.sorted_mergeSort htransD htotalD students).imp of_decide_eq_true
  · intro ascending q
    cases ascending with
    | true =>
      rw [sort_students_true]
      apply mergeSort_filter_eq htransA htotalA
      intro a b ha hb
      simp only [decide_eq_true_eq] at ha hb ⊢
      rw [ha, hb]
    | false =>
      rw [sort_students_false]
      apply mergeSort_filter_eq htransD htotalD
      intro a b ha hb
      simp only [decide_eq_true_eq] at ha hb ⊢
      rw [ha, hb]

/-- Claim C10: Load performs no field validation beyond integer parsing
and the six-field count: any record rendered on a six-field line is
accepted, even with an empty name, coursework or exam marks outside their
bounds, or a code duplicating an earlier record's - so the data-model
bounds and the code-uniqueness invariant may fail to hold immediately
after Load; Add (and Update, which validates identically) rejects those
same fields. -/
theorem claim_C10_thm :
    (∀ s : Student, ',' ∉ s.name → parseLine (save_line s ++ ['\n']) = some s) ∧
    load_data [['2'], "7,,-5,99,3,1000".toList, "7,B,1,2,3,4".toList] =
      [⟨7, [], -5, 99, 3, 1000⟩, ⟨7, "B".toList, 1, 2, 3, 4⟩] ∧
    (⟨7, [], -5, 99, 3, 1000⟩ : Student).name = [] ∧
    (⟨7, [], -5, 99, 3, 1000⟩ : Student).cm1 < 0 ∧
    20 < (⟨7, [], -5, 99, 3, 1000⟩ : Student).cm2 ∧
    100 < (⟨7, [], -5, 99, 3, 1000⟩ : Student).exam_mark ∧
    (⟨7, [], -5, 99, 3, 1000⟩ : Student).code = (⟨7, "B".toList, 1, 2, 3, 4⟩ : Student).code ∧
    add_student [] 7 [] (-5) 99 3 1000 = .error .ValidationError := by
  exact ⟨fun s h => parseLine_save_line s h, by decide⟩

/-- Witness for C10: a record with empty name, negative and oversized
marks is accepted by the line parser untouched. -/
theorem claim_C10_witness :
    parseLine (save_line ⟨7, [], -5, 99, 3, 1000⟩ ++ ['\n']) =
      some ⟨7, [], -5, 99, 3, 1000⟩ :=
  claim_C10_thm.1 ⟨7, [], -5, 99, 3, 1000⟩ (by decide)

end StudentMgr
